import Mathlib

/-!
Verification of the Kaleidoscope front end (lexer, precedence-climbing
parser, and AST-to-backend lowering dispatcher) of this repository.

The lexer is embedded from `GetTok` in `toy.cpp`; the parser from
`parser.cpp` (`ParsePrimary`, `ParseIdentifierExpr`, `ParseParenExpr`,
`ParseExpression`, `ParseBinOpRHS`, `GetTokPrecedence`); the lowering
dispatcher from `codegen.cpp` (`CodeGenerator::*CodeGen`).  Machine
doubles are modelled as rationals (`ℚ`); the character stream is a
`List Char`; C `getchar` EOF is the `Ch.eofc` case; fallible code
returns `Option`/`Except`.  The fuel argument of recursive functions is
an embedding artifact bounding the number of steps; every claim is
either stated for all fuel values or evaluated at a sufficient one.
-/

/-- Token kinds, from the `TokenType` enum in `toy.cpp` / `lexer.h`.
`tok_externKw` renders the C++ enumerator `tok_extern`. -/
inductive TokType where
  | tok_eof
  | tok_def
  | tok_externKw
  | tok_identifier
  | tok_number
  | tok_op
  | tok_undef
  | tok_lp
  | tok_sc
deriving DecidableEq, Repr

/-- A token together with the state of the lexer side channels
(`IdentifierStr`, `NumVal`) at the moment the token was produced.  The
C++ `Token` stores only `(type, value : int)`; the parser reads the
globals `IdentifierStr`/`NumVal` while the token is current, so we
attach their values to the token. -/
structure Tok where
  type : TokType
  value : Int
  identStr : String
  numVal : ℚ
deriving DecidableEq, Repr

/-- Result of C `getchar`: a character, or end of file. -/
inductive Ch where
  | chc (c : Char)
  | eofc
deriving DecidableEq, Repr

/-- C locale `isspace`. -/
def isspaceC (c : Char) : Bool :=
  c = ' ' || c = '\t' || c = '\n' || c = '\x0b' || c = '\x0c' || c = '\r'

/-- C locale `isalpha`. -/
def isalphaC (c : Char) : Bool :=
  (('a' ≤ c && c ≤ 'z') || ('A' ≤ c && c ≤ 'Z'))

/-- C locale `isdigit`. -/
def isdigitC (c : Char) : Bool := '0' ≤ c && c ≤ '9'

/-- C locale `isalnum`. -/
def isalnumC (c : Char) : Bool := isalphaC c || isdigitC c

/-- The character class of the lexer number loop: digits and dots. -/
def digitOrDot (c : Char) : Bool := isdigitC c || c = '.'

/-- Lexer scan state: the one-character pushback `LastChar`, the rest of
the input stream, and the side-channel globals `IdentifierStr`,
`NumVal`. -/
structure LState where
  lastChar : Ch
  input : List Char
  identifierStr : String
  numVal : ℚ
deriving DecidableEq, Repr

/-- One `getchar` call on the remaining input. -/
def read1 : List Char → Ch × List Char
  | [] => (Ch.eofc, [])
  | c :: rest => (Ch.chc c, rest)

/-- Body of the whitespace-skipping loop: keep reading while the
character just read is whitespace. -/
def skipSpacesGo : List Char → Ch × List Char
  | [] => (Ch.eofc, [])
  | c :: rest => if isspaceC c then skipSpacesGo rest else (Ch.chc c, rest)

/-- The whitespace-skipping loop at the top of `GetTok`:
`while (isspace(LastChar)) LastChar = getchar();`. -/
def skipSpaces (lc : Ch) (input : List Char) : Ch × List Char :=
  match lc with
  | Ch.eofc => (Ch.eofc, input)
  | Ch.chc c => if isspaceC c then skipSpacesGo input else (Ch.chc c, input)

/-- The comment loop of `GetTok`: read characters until the character
just read is a newline, carriage return, or EOF. -/
def skipComment : List Char → Ch × List Char
  | [] => (Ch.eofc, [])
  | c :: rest => if c = '\n' ∨ c = '\r' then (Ch.chc c, rest) else skipComment rest

/-- Numeric value of a digit list, most significant first. -/
def digitsVal (l : List Char) : ℚ :=
  l.foldl (fun acc c => 10 * acc + ((c.toNat - '0'.toNat : ℕ) : ℚ)) 0

/-- Numeric value of a digit list as a natural number. -/
def digitsValNat (l : List Char) : ℕ :=
  l.foldl (fun acc c => 10 * acc + (c.toNat - '0'.toNat)) 0

/-- `std::stod` on a string made of digits and dots: it converts the
longest valid floating-point prefix `digits [ '.' digits ]` and throws
`std::invalid_argument` (here `none`) when no conversion can be
performed, i.e. when that prefix contains no digit.  The finite range of
`double` (`std::out_of_range`) is not modelled. -/
def stodQ (text : List Char) : Option ℚ :=
  match text.dropWhile isdigitC with
  | '.' :: rest2 =>
      if (text.takeWhile isdigitC).isEmpty && (rest2.takeWhile isdigitC).isEmpty then none
      else some (digitsVal (text.takeWhile isdigitC) +
        digitsVal (rest2.takeWhile isdigitC) / (10 : ℚ) ^ (rest2.takeWhile isdigitC).length)
  | _ =>
      if (text.takeWhile isdigitC).isEmpty then none
      else some (digitsVal (text.takeWhile isdigitC))

/-- The C cast `(int)d` for a double `d`: truncation toward zero. -/
def cIntOfRat (q : ℚ) : Int := q.num / (q.den : Int)

/-- `std::stod` throws `std::out_of_range` when the converted value is
out of `double` range.  Under round to nearest, ties to even, a
nonnegative value overflows exactly when it reaches `2^1024 - 2^970`,
the midpoint between `DBL_MAX = 2^1024 - 2^971` and `2^1024` (the
midpoint itself ties upward to infinity).  A text of digits and dots is
nonnegative with fractional part `< 1` while the threshold is an
integer, so its value reaches the threshold exactly when the value of
its integer-part digits does; `overflowD_value` below proves this
equivalence with the converted rational.  (Whether an underflowed
subnormal result also sets `ERANGE` is implementation-defined in
`strtod` and is not modelled.) -/
def ovfThreshold : ℕ :=
  179769313486231580793728971405303415079934132710037826936173778980444968292764750946649017977587207096330286416692887910946555547851940402630657488671505820681908902000708383676273854845817711531764475730270069855571366959622842914819860834936475292719074168444365510704342711559699508093042880177904174497792

/-- The overflow-threshold literal above is `2^1024 - 2^970`. -/
theorem ovfThreshold_eq : ovfThreshold = 2 ^ 1024 - 2 ^ 970 := by
  norm_num [ovfThreshold]

def overflowD (text : List Char) : Bool :=
  decide (ovfThreshold ≤ digitsValNat (text.takeWhile isdigitC))

/-- Outcome of the `try { NumVal = std::stod(NumStr); } catch ... throw;`
block of the number branch of `GetTok`: a conversion failure — either
`std::invalid_argument` (no valid numeric prefix) or
`std::out_of_range` (converted value outside `double` range) — is
logged and rethrown (never caught anywhere: an unrecoverable abort of
the process, modelled as `Except.error`); otherwise the value is stored
in `NumVal` and the number token produced. -/
def numResult (ids : String) (rest text : List Char) : Option ℚ →
    Option (Except String (Tok × LState))
  | none => some (Except.error "Invalid numeric value")
  | some v =>
      if overflowD text then some (Except.error "Numeric value is out of range")
      else
        some (Except.ok (⟨TokType.tok_number, cIntOfRat v, ids, v⟩,
          ⟨(read1 rest).1, (read1 rest).2, ids, v⟩))

/-- One call of `GetTok` from `toy.cpp`, fuelled for the recursive call
in the comment branch. -/
def GetTokF : Nat → LState → Option (Except String (Tok × LState))
  | 0, _ => none
  | fuel+1, st =>
    let sp := skipSpaces st.lastChar st.input
    match sp.1 with
    | Ch.eofc =>
        some (Except.ok (⟨TokType.tok_eof, -1, st.identifierStr, st.numVal⟩,
          ⟨Ch.eofc, sp.2, st.identifierStr, st.numVal⟩))
    | Ch.chc c =>
      if isalphaC c then
        let ident := String.mk (c :: sp.2.takeWhile isalnumC)
        let rest := sp.2.dropWhile isalnumC
        let nxt := read1 rest
        let st2 : LState := ⟨nxt.1, nxt.2, ident, st.numVal⟩
        if ident = "def" then
          some (Except.ok (⟨TokType.tok_def, -1, ident, st.numVal⟩, st2))
        else if ident = "extern" then
          some (Except.ok (⟨TokType.tok_externKw, -1, ident, st.numVal⟩, st2))
        else if ident = "(" then
          some (Except.ok (⟨TokType.tok_lp, 40, ident, st.numVal⟩, st2))
        else if ident = ";" then
          some (Except.ok (⟨TokType.tok_lp, 59, ident, st.numVal⟩, st2))
        else
          some (Except.ok (⟨TokType.tok_identifier, -1, ident, st.numVal⟩, st2))
      else if digitOrDot c then
        numResult st.identifierStr (sp.2.dropWhile digitOrDot)
          (c :: sp.2.takeWhile digitOrDot) (stodQ (c :: sp.2.takeWhile digitOrDot))
      else if c = '#' then
        let cm := skipComment sp.2
        match cm.1 with
        | Ch.eofc =>
            some (Except.ok (⟨TokType.tok_eof, -1, st.identifierStr, st.numVal⟩,
              ⟨Ch.eofc, cm.2, st.identifierStr, st.numVal⟩))
        | Ch.chc c2 => GetTokF fuel ⟨Ch.chc c2, cm.2, st.identifierStr, st.numVal⟩
      else
        let nxt := read1 sp.2
        some (Except.ok (⟨TokType.tok_op, (c.toNat : Int), st.identifierStr, st.numVal⟩,
          ⟨nxt.1, nxt.2, st.identifierStr, st.numVal⟩))

/-- Run `GetTok` repeatedly until an EOF token, collecting the token
stream; a lexer error aborts the whole run. -/
def tokenizeF : Nat → LState → Option (Except String (List Tok))
  | 0, _ => none
  | fuel+1, st =>
    match GetTokF (fuel+1) st with
    | none => none
    | some (Except.error e) => some (Except.error e)
    | some (Except.ok (t, st2)) =>
      if t.type = TokType.tok_eof then some (Except.ok [t])
      else
        match tokenizeF fuel st2 with
        | none => none
        | some (Except.error e) => some (Except.error e)
        | some (Except.ok ts) => some (Except.ok (t :: ts))

/-- Tokenize a whole input string, starting from the initial lexer state
of `toy.cpp` (`LastChar = ' '`, empty side channels). -/
def tokenizeStr (s : String) : Option (Except String (List Tok)) :=
  tokenizeF (s.length + 2) ⟨Ch.chc ' ', s.toList, "", 0⟩

/-- The end-of-input token, `Token(TokenType::tok_eof)` with the default
value `-1` (side channels irrelevant to the parser at EOF). -/
def eofTok : Tok := ⟨TokType.tok_eof, -1, "", 0⟩

/-- Parser state: the current token `CurTok` plus the not-yet-pulled
remainder of the token stream; at stream end the lexer keeps returning
EOF tokens. -/
structure PState where
  cur : Tok
  rest : List Tok
deriving DecidableEq, Repr

/-- `getNextToken`: pull the next token into `CurTok`. -/
def advance (s : PState) : PState :=
  match s.rest with
  | [] => ⟨eofTok, []⟩
  | t :: ts => ⟨t, ts⟩

/-- `GetTokPrecedence` from `parser.cpp`: `isascii` guard, then the
binding-power table over the token value. -/
def GetTokPrecedence (t : Tok) : Int :=
  if ¬ (0 ≤ t.value ∧ t.value ≤ 127) then -1
  else if t.value = 60 then 10
  else if t.value = 43 then 20
  else if t.value = 45 then 20
  else if t.value = 42 then 40
  else -1

/-- The C cast `(char) BinOp` used when `BinaryExprAST` stores its
operator; reached only for values in `0..127`. -/
def charOfVal (v : Int) : Char := Char.ofNat v.toNat

mutual
/-- Expression AST (`NumberExprAST`, `VariableExprAST`, `BinaryExprAST`,
`CallsExprAST` from `ast.h`). -/
inductive Expr where
  | num (v : ℚ)
  | var (n : String)
  | binaryOp (op : Char) (lhs rhs : Expr)
  | call (callee : String) (args : ExprList)
/-- An owned, ordered argument list of a call expression. -/
inductive ExprList where
  | nil
  | cons (e : Expr) (es : ExprList)
end

/-- Number of arguments, `CallsExprAST::getArgSize`. -/
def ExprList.length : ExprList → Nat
  | ExprList.nil => 0
  | ExprList.cons _ es => es.length + 1

/-- The six mutually recursive parsing operations of `parser.cpp`,
packaged as one record so that the fuelled fixpoint below is a plain
structural recursion on `Nat`. -/
structure ParserFns where
  primary : PState → Option (Expr × PState)
  identExpr : PState → Option (Expr × PState)
  parenExpr : PState → Option (Expr × PState)
  argsList : PState → Option (ExprList × PState)
  expression : PState → Option (Expr × PState)
  binOpRHS : Int → Expr → PState → Option (Expr × PState)

/-- One unfolding of the mutual recursion of `parser.cpp`:
`ParsePrimary`, `ParseIdentifierExpr` (with its argument loop),
`ParseParenExpr`, `ParseExpression` and `ParseBinOpRHS` (its `while`
loop rendered as tail recursion).  `40`, `41`, `44` are the token
values of the characters `(`, `)`, `,`. -/
def parserStep (p : ParserFns) : ParserFns where
  primary := fun s =>
    match s.cur.type with
    | TokType.tok_identifier => p.identExpr s
    | TokType.tok_number => some (Expr.num s.cur.numVal, advance s)
    | TokType.tok_lp => p.parenExpr s
    | _ => none
  identExpr := fun s =>
    let idName := s.cur.identStr
    let s1 := advance s
    if s1.cur.value ≠ 40 then some (Expr.var idName, s1)
    else
      let s2 := advance s1
      if s2.cur.value ≠ 41 then
        match p.argsList s2 with
        | none => none
        | some (args, s3) => some (Expr.call idName args, advance s3)
      else some (Expr.call idName ExprList.nil, advance s2)
  parenExpr := fun s =>
    let s1 := advance s
    match p.expression s1 with
    | none => none
    | some (v, s2) => if s2.cur.value ≠ 41 then none else some (v, advance s2)
  argsList := fun s =>
    match p.expression s with
    | none => none
    | some (arg, s1) =>
      if s1.cur.value = 41 then some (ExprList.cons arg ExprList.nil, s1)
      else if s1.cur.value ≠ 44 then none
      else
        match p.argsList (advance s1) with
        | none => none
        | some (args, s2) => some (ExprList.cons arg args, s2)
  expression := fun s =>
    match p.primary s with
    | none => none
    | some (lhs, s1) => p.binOpRHS 0 lhs s1
  binOpRHS := fun exprPrec lhs s =>
    let tokPrec := GetTokPrecedence s.cur
    if tokPrec < exprPrec then some (lhs, s)
    else
      let binOp := s.cur.value
      let s1 := advance s
      match p.primary s1 with
      | none => none
      | some (rhs, s2) =>
        let nextPrec := GetTokPrecedence s2.cur
        match (if tokPrec < nextPrec then p.binOpRHS (tokPrec + 1) rhs s2
               else some (rhs, s2)) with
        | none => none
        | some (rhs2, s3) =>
            p.binOpRHS exprPrec (Expr.binaryOp (charOfVal binOp) lhs rhs2) s3

/-- The parser family at a given recursion budget; at budget `0` every
operation fails (never reached on the inputs considered). -/
def parsers : Nat → ParserFns
  | 0 => ⟨fun _ => none, fun _ => none, fun _ => none, fun _ => none,
          fun _ => none, fun _ _ _ => none⟩
  | fuel+1 => parserStep (parsers fuel)

/-- `ParseExpression` at a given fuel. -/
def parseExpressionF (fuel : Nat) : PState → Option (Expr × PState) :=
  (parsers fuel).expression

/-- Prime `CurTok` with the first token (the driver calls
`getNextToken` once before parsing) and then parse one expression,
with ample fuel. -/
def runParseExpr (toks : List Tok) : Option (Expr × PState) :=
  parseExpressionF ((toks.length + 1) * 8) (advance ⟨eofTok, toks⟩)

/-- Lex a whole input string and parse one expression from the
resulting token stream. -/
def runLexParse (s : String) : Option (Expr × PState) :=
  match tokenizeStr s with
  | some (Except.ok toks) => runParseExpr toks
  | _ => none

/-- A number token, value field `(int)NumVal`. -/
def numTok (v : ℚ) : Tok := ⟨TokType.tok_number, cIntOfRat v, "", v⟩

/-- An operator token for character `c`, as produced by the final
branch of `GetTok`. -/
def opTok (c : Char) : Tok := ⟨TokType.tok_op, (c.toNat : Int), "", 0⟩

/-- Any character other than the four table entries has binding power
`-1` in `GetTokPrecedence`. -/
theorem GetTokPrecedence_other (d : Char) (h1 : d ≠ '<') (h2 : d ≠ '+')
    (h3 : d ≠ '-') (h4 : d ≠ '*') :
    GetTokPrecedence (opTok d) = -1 := by
  have key : ∀ (e : Char) (z : Int), d ≠ e → (e.toNat : Int) = z → (d.toNat : Int) ≠ z := by
    intro e z hne hz hc
    apply hne
    have : d.toNat = e.toNat := by rw [← hz] at hc; exact_mod_cast hc
    rw [← Char.ofNat_toNat d, this, Char.ofNat_toNat]
  unfold GetTokPrecedence opTok
  by_cases ha : (0 : Int) ≤ (d.toNat : Int) ∧ (d.toNat : Int) ≤ 127
  · rw [if_neg (by simp [ha])]
    rw [if_neg (key '<' 60 h1 (by decide)), if_neg (key '+' 43 h2 (by decide)),
      if_neg (key '-' 45 h3 (by decide)), if_neg (key '*' 42 h4 (by decide))]
  · rw [if_pos (by simpa using ha)]

/-- C1: for all numeric literals `a`, `b`, `c`, the expression parser
groups `a+b*c` as `BinaryOp('+', a, BinaryOp('*', b, c))`, `a*b+c` as
`BinaryOp('+', BinaryOp('*', a, b), c)` and `a<b+c` as
`BinaryOp('<', a, BinaryOp('+', b, c))`, exactly following the
binding-power table `<`=10, `+`=20, `-`=20, `*`=40, with every other
character non-binary (power `-1`). -/
theorem C1_precedence_grouping (a b c : ℚ) (d : Char) (h1 : d ≠ '<')
    (h2 : d ≠ '+') (h3 : d ≠ '-') (h4 : d ≠ '*') :
    runParseExpr [numTok a, opTok '+', numTok b, opTok '*', numTok c] =
      some (Expr.binaryOp '+' (Expr.num a)
        (Expr.binaryOp '*' (Expr.num b) (Expr.num c)), ⟨eofTok, []⟩) ∧
    runParseExpr [numTok a, opTok '*', numTok b, opTok '+', numTok c] =
      some (Expr.binaryOp '+'
        (Expr.binaryOp '*' (Expr.num a) (Expr.num b)) (Expr.num c), ⟨eofTok, []⟩) ∧
    runParseExpr [numTok a, opTok '<', numTok b, opTok '+', numTok c] =
      some (Expr.binaryOp '<' (Expr.num a)
        (Expr.binaryOp '+' (Expr.num b) (Expr.num c)), ⟨eofTok, []⟩) ∧
    GetTokPrecedence (opTok '<') = 10 ∧
    GetTokPrecedence (opTok '+') = 20 ∧
    GetTokPrecedence (opTok '-') = 20 ∧
    GetTokPrecedence (opTok '*') = 40 ∧
    GetTokPrecedence (opTok d) = -1 :=
  ⟨rfl, rfl, rfl, rfl, rfl, rfl, rfl, GetTokPrecedence_other d h1 h2 h3 h4⟩

/-- Witness for C1 at `a=1`, `b=2`, `c=3`, `d='/'`. -/
theorem C1_precedence_grouping_witness :
    runParseExpr [numTok 1, opTok '+', numTok 2, opTok '*', numTok 3] =
      some (Expr.binaryOp '+' (Expr.num 1)
        (Expr.binaryOp '*' (Expr.num 2) (Expr.num 3)), ⟨eofTok, []⟩) ∧
    runParseExpr [numTok 1, opTok '*', numTok 2, opTok '+', numTok 3] =
      some (Expr.binaryOp '+'
        (Expr.binaryOp '*' (Expr.num 1) (Expr.num 2)) (Expr.num 3), ⟨eofTok, []⟩) ∧
    runParseExpr [numTok 1, opTok '<', numTok 2, opTok '+', numTok 3] =
      some (Expr.binaryOp '<' (Expr.num 1)
        (Expr.binaryOp '+' (Expr.num 2) (Expr.num 3)), ⟨eofTok, []⟩) ∧
    GetTokPrecedence (opTok '<') = 10 ∧
    GetTokPrecedence (opTok '+') = 20 ∧
    GetTokPrecedence (opTok '-') = 20 ∧
    GetTokPrecedence (opTok '*') = 40 ∧
    GetTokPrecedence (opTok '/') = -1 :=
  C1_precedence_grouping 1 2 3 '/' (by decide) (by decide) (by decide) (by decide)

/-- C2 (code bug): on the concrete input `(1+2)*3` the lexer tokenizes
`(` as an Operator token (`tok_op`, never `tok_lp`), `ParsePrimary`
dispatches on the token kind and has no case for `tok_op`, so the
parse FAILS instead of yielding `BinaryOp('*', BinaryOp('+',1,2), 3)`:
the `tok_lp` case of `ParsePrimary` (grammar comment
`primary ::= parenexpr`) is unreachable from the lexer. -/
theorem C2_paren_grouping_fails :
    ((tokenizeStr "(1+2)*3").map (fun r => r.map (fun ts => ts.map Tok.type))) =
      some (Except.ok [TokType.tok_op, TokType.tok_number, TokType.tok_op,
        TokType.tok_number, TokType.tok_op, TokType.tok_op, TokType.tok_number,
        TokType.tok_eof]) ∧
    runLexParse "(1+2)*3" = none :=
  ⟨rfl, rfl⟩

/-- C3: for all numeric literals `a`, `b`, `c`, the parser groups
`a-b-c` as `BinaryOp('-', BinaryOp('-', a, b), c)`: equal binding
powers associate to the left. -/
theorem C3_left_assoc (a b c : ℚ) :
    runParseExpr [numTok a, opTok '-', numTok b, opTok '-', numTok c] =
      some (Expr.binaryOp '-'
        (Expr.binaryOp '-' (Expr.num a) (Expr.num b)) (Expr.num c), ⟨eofTok, []⟩) :=
  rfl

/-- A backend value handle (`llvm::Value*`): a floating-point constant,
a function argument, an instruction result (function name and position
in its entry block), or a function handle. -/
inductive Val where
  | constFP (v : ℚ)
  | argRef (fn : String) (idx : Nat)
  | instrRef (fn : String) (idx : Nat)
  | funcRef (fn : String)
deriving DecidableEq, Repr

/-- A backend instruction as emitted through the IR builder by
`codegen.cpp`. -/
inductive Instr where
  | fadd (l r : Val)
  | fsub (l r : Val)
  | fmul (l r : Val)
  | fdiv (l r : Val)
  | fcmpULT (l r : Val)
  | uitofp (v : Val)
  | callI (callee : String) (args : List Val)
  | ret (v : Val)
deriving DecidableEq, Repr

/-- A function of the backend module: its name, its parameter names in
declared order (`Arg.getName()`), and its entry-block contents —
`none` models `TheFunction->empty()` (declaration only, no basic
block), `some l` a created entry block holding instructions `l`. -/
structure Fn where
  name : String
  args : List String
  body : Option (List Instr)
deriving DecidableEq, Repr

/-- The mutable code-generation state of `codegen.cpp`: the module
`TheModule` (functions in creation order), the builder insertion point
(the function whose entry block `Builder` inserts into), the
per-function symbol table `NamedValues` (insertion-ordered association
list; `std::map` iteration order is never observed), the diagnostics
printed through `LogErrorV`, and `trace`, a ghost append-only record of
every instruction emitted through the builder. -/
structure CGState where
  module : List Fn
  insertFn : Option String
  namedValues : List (String × Option Val)
  diags : List String
  trace : List Instr
deriving DecidableEq, Repr

/-- `TheModule->getFunction(name)`. -/
def getFunction (m : List Fn) (n : String) : Option Fn :=
  m.find? (fun f => f.name = n)

/-- `LogErrorV`: print one diagnostic line (and return null at the call
site). -/
def addDiag (st : CGState) (s : String) : CGState :=
  { st with diags := st.diags ++ [s] }

/-- Append an instruction to the entry block of the named function (a
no-op module-wise when there is no insertion point; the builder always
has one on the paths actually executed). -/
def appendIns (m : List Fn) (fopt : Option String) (i : Instr) : List Fn :=
  match fopt with
  | none => m
  | some f =>
      m.map (fun fn => if fn.name = f then { fn with body := fn.body.map (· ++ [i]) } else fn)

/-- Emit one instruction through `Builder` at the current insertion
point; the returned handle records the function and the instruction
position.  The builder never fails. -/
def emitInstr (st : CGState) (i : Instr) : Val × CGState :=
  let v : Val :=
    match st.insertFn with
    | some f =>
        Val.instrRef f (match getFunction st.module f with
          | some fn => (fn.body.getD []).length
          | none => 0)
    | none => Val.instrRef "" 0
  (v, { st with module := appendIns st.module st.insertFn i, trace := st.trace ++ [i] })

/-- Pure lookup in the symbol table (the outer `Option` is presence of
the key; the inner is the stored `llvm::Value*`, which `operator[]`
default-initializes to null). -/
def lookupNV (m : List (String × Option Val)) (k : String) : Option (Option Val) :=
  (m.find? (fun p => p.1 = k)).map (·.2)

/-- `NamedValues[k]` — `std::map::operator[]`: return the mapped value
if the key is present, otherwise insert a null binding for the key and
return it. -/
def mapIndexGet (m : List (String × Option Val)) (k : String) :
    Option Val × List (String × Option Val) :=
  match lookupNV m k with
  | some v => (v, m)
  | none => (none, m ++ [(k, none)])

/-- `NamedValues[k] = v` — insert or assign. -/
def insertAssign (m : List (String × Option Val)) (k : String) (v : Option Val) :
    List (String × Option Val) :=
  match m with
  | [] => [(k, v)]
  | (k2, v2) :: rest => if k2 = k then (k, v) :: rest else (k2, v2) :: insertAssign rest k v

/-- The operator dispatch of `BinaryExprCodeGen`, reached once both
operands lowered successfully: `+`, `-`, `*`, `/` emit the matching
arithmetic instruction; `<` emits the comparison and widens its boolean
result back to double; any other operator is the InvalidOperator error
(the `default` case). -/
def binDispatch (op : Char) (lv rv : Val) (st : CGState) : Option Val × CGState :=
  if op = '+' then
    let e := emitInstr st (Instr.fadd lv rv); (some e.1, e.2)
  else if op = '-' then
    let e := emitInstr st (Instr.fsub lv rv); (some e.1, e.2)
  else if op = '*' then
    let e := emitInstr st (Instr.fmul lv rv); (some e.1, e.2)
  else if op = '/' then
    let e := emitInstr st (Instr.fdiv lv rv); (some e.1, e.2)
  else if op = '<' then
    let c := emitInstr st (Instr.fcmpULT lv rv)
    let w := emitInstr c.2 (Instr.uitofp c.1)
    (some w.1, w.2)
  else
    (none, addDiag st (String.singleton op ++ ": invalid binary operator."))

mutual
/-- `ExprAST::codegen` dispatched through `CodeGenerator`:
`NumberExprCodeGen`, `VariableExprCodeGen`, `BinaryExprCodeGen` and
`CallsExprCodeGen` from `codegen.cpp`.  Returns the produced value
handle (null = `none`) plus the updated backend state. -/
def codegenExpr : CGState → Expr → Option Val × CGState
  | st, Expr.num v => (some (Val.constFP v), st)
  | st, Expr.var n =>
      let r := mapIndexGet st.namedValues n
      match r.1 with
      | none => (none, { st with
          namedValues := r.2,
          diags := st.diags ++ ["Unknown variable name : " ++ n] })
      | some v => (some v, { st with namedValues := r.2 })
  | st, Expr.binaryOp op lhs rhs =>
      let l := codegenExpr st lhs
      let r := codegenExpr l.2 rhs
      match l.1, r.1 with
      | some lv, some rv => binDispatch op lv rv r.2
      | _, _ => (none, r.2)
  | st, Expr.call callee args =>
      match getFunction st.module callee with
      | none => (none, addDiag st (callee ++ ": unknown function referenced"))
      | some f =>
          if f.args.length ≠ args.length then
            (none, addDiag st (callee ++ ": incorrect # arguments passeed"))
          else
            let r := codegenArgs st args
            match r.1 with
            | none => (none, r.2)
            | some vs =>
                let e := emitInstr r.2 (Instr.callI callee vs)
                (some e.1, e.2)
/-- The argument-lowering loop of `CallsExprCodeGen`: left to right,
short-circuiting on the first failure. -/
def codegenArgs : CGState → ExprList → Option (List Val) × CGState
  | st, ExprList.nil => (some [], st)
  | st, ExprList.cons e es =>
      let r := codegenExpr st e
      match r.1 with
      | none => (none, r.2)
      | some v =>
          let rs := codegenArgs r.2 es
          match rs.1 with
          | none => (none, rs.2)
          | some vs => (some (v :: vs), rs.2)
end

/-- `PrototypeCodeGen`: create a backend function with one scalar
parameter per declared name, in declared order, binding each parameter
position to its name.  (Name collisions cannot occur on the
`FunctionCodeGen` path, which only creates after a failed lookup.) -/
def PrototypeCodeGen (st : CGState) (name : String) (argNames : List String) : CGState :=
  { st with module := st.module ++ [⟨name, argNames, none⟩] }

/-- Give the named function a fresh (empty) entry block, model of
`BasicBlock::Create(.., TheFunction)`. -/
def setEmptyBody (m : List Fn) (n : String) : List Fn :=
  m.map (fun fn => if fn.name = n then { fn with body := some [] } else fn)

/-- Remove the named function from the module,
`TheFunction->eraseFromParent()` (the handle designates the first
function of that name). -/
def eraseFirstNamed : List Fn → String → List Fn
  | [], _ => []
  | f :: rest, n => if f.name = n then rest else f :: eraseFirstNamed rest n

/-- `NamedValues.clear()` followed by `NamedValues[Arg.getName()] = &Arg`
for each function argument in order (duplicates silently overwrite). -/
def buildParams (fname : String) (args : List String) : List (String × Option Val) :=
  (args.zip (List.range args.length)).foldl
    (fun m p => insertAssign m p.1 (some (Val.argRef fname p.2))) []

/-- `FunctionCodeGen` from `codegen.cpp`: reuse a previously declared
function of the same name or create one from the prototype; reject
redefinition when it already has a body; otherwise open an entry block,
rebuild the symbol table from the function's own parameters, lower the
body; on success emit the return, verify and optimize (the external
verifier/optimizer capability is modelled as the identity) and return
the function handle; on body failure erase the function and fail. -/
def FunctionCodeGen (st : CGState) (name : String) (argNames : List String)
    (body : Expr) : Option Val × CGState :=
  let st0 :=
    match getFunction st.module name with
    | some _ => st
    | none => PrototypeCodeGen st name argNames
  match getFunction st0.module name with
  | none => (none, st0)
  | some f =>
    if f.body.isSome then
      (none, addDiag st0 "Function cannot be redefined.")
    else
      let st1 : CGState :=
        { st0 with module := setEmptyBody st0.module name,
                   insertFn := some name,
                   namedValues := buildParams name f.args }
      let r := codegenExpr st1 body
      match r.1 with
      | some rv =>
          let e := emitInstr r.2 (Instr.ret rv)
          (some (Val.funcRef name), e.2)
      | none =>
          (none, { r.2 with module := eraseFirstNamed r.2.module name })

/-- C4: lowering a `FunctionDef` whose name already denotes a module
function with a non-empty body reports the Redefinition diagnostic and
fails, leaving the whole backend state — module, insertion point,
symbol table, emitted instructions — exactly as it was: lowering stops
before creating a block, clearing the symbol table, or lowering the
body. -/
theorem C4_redefinition_rejected (st : CGState) (fn : Fn) (name : String)
    (argNames : List String) (body : Expr) (bs : List Instr)
    (h1 : getFunction st.module name = some fn) (h2 : fn.body = some bs) :
    FunctionCodeGen st name argNames body =
      (none, { st with diags := st.diags ++ ["Function cannot be redefined."] }) := by
  unfold FunctionCodeGen
  rw [h1]
  simp only [h1]
  rw [h2]
  simp [addDiag]

/-- Witness for C4: a module already holding a defined `g`. -/
theorem C4_redefinition_rejected_witness :
    FunctionCodeGen ⟨[⟨"g", [], some []⟩], none, [], [], []⟩ "g" [] (Expr.num 1) =
      (none, { module := [⟨"g", [], some []⟩], insertFn := none, namedValues := [],
               diags := ["Function cannot be redefined."], trace := [] }) :=
  C4_redefinition_rejected ⟨[⟨"g", [], some []⟩], none, [], [], []⟩
    ⟨"g", [], some []⟩ "g" [] (Expr.num 1) [] rfl rfl

/-- C5: with `h` resolved in the module as a 2-parameter function,
lowering `h(1)` or `h(1,2,3)` yields the ArityMismatch diagnostic and
failure with the state otherwise untouched (no argument lowered, no
instruction emitted — the arity check precedes argument lowering),
while `h(1,2)` succeeds and emits one call instruction whose arguments
appear in the original left-to-right order. -/
theorem C5_call_arity (st : CGState) (f g : Fn) (gname : String) (bs : List Instr)
    (h1 : getFunction st.module "h" = some f) (h2 : f.args.length = 2)
    (h3 : st.insertFn = some gname) (h4 : getFunction st.module gname = some g)
    (h5 : g.body = some bs) :
    codegenExpr st (Expr.call "h" (ExprList.cons (Expr.num 1) ExprList.nil)) =
      (none, addDiag st "h: incorrect # arguments passeed") ∧
    codegenExpr st (Expr.call "h" (ExprList.cons (Expr.num 1) (ExprList.cons (Expr.num 2)
        (ExprList.cons (Expr.num 3) ExprList.nil)))) =
      (none, addDiag st "h: incorrect # arguments passeed") ∧
    codegenExpr st (Expr.call "h" (ExprList.cons (Expr.num 1) (ExprList.cons (Expr.num 2)
        ExprList.nil))) =
      (some (Val.instrRef gname bs.length),
        { st with
            module := appendIns st.module (some gname)
              (Instr.callI "h" [Val.constFP 1, Val.constFP 2]),
            trace := st.trace ++ [Instr.callI "h" [Val.constFP 1, Val.constFP 2]] }) := by
  refine ⟨?_, ?_, ?_⟩
  · simp [codegenExpr, h1, h2, ExprList.length, addDiag]
  · simp [codegenExpr, h1, h2, ExprList.length, addDiag]
  · simp [codegenExpr, codegenArgs, h1, h2, h3, h4, h5, ExprList.length, emitInstr]

/-- Witness for C5: module declaring `h(a b)` and a function `q` under
construction as the insertion point. -/
theorem C5_call_arity_witness :
    codegenExpr ⟨[⟨"h", ["a", "b"], none⟩, ⟨"q", [], some []⟩], some "q", [], [], []⟩
        (Expr.call "h" (ExprList.cons (Expr.num 1) ExprList.nil)) =
      (none, addDiag ⟨[⟨"h", ["a", "b"], none⟩, ⟨"q", [], some []⟩], some "q", [], [], []⟩
        "h: incorrect # arguments passeed") ∧
    codegenExpr ⟨[⟨"h", ["a", "b"], none⟩, ⟨"q", [], some []⟩], some "q", [], [], []⟩
        (Expr.call "h" (ExprList.cons (Expr.num 1) (ExprList.cons (Expr.num 2)
          (ExprList.cons (Expr.num 3) ExprList.nil)))) =
      (none, addDiag ⟨[⟨"h", ["a", "b"], none⟩, ⟨"q", [], some []⟩], some "q", [], [], []⟩
        "h: incorrect # arguments passeed") ∧
    codegenExpr ⟨[⟨"h", ["a", "b"], none⟩, ⟨"q", [], some []⟩], some "q", [], [], []⟩
        (Expr.call "h" (ExprList.cons (Expr.num 1) (ExprList.cons (Expr.num 2)
          ExprList.nil))) =
      (some (Val.instrRef "q" 0),
        { module := appendIns [⟨"h", ["a", "b"], none⟩, ⟨"q", [], some []⟩] (some "q")
            (Instr.callI "h" [Val.constFP 1, Val.constFP 2]),
          insertFn := some "q", namedValues := [], diags := [],
          trace := [Instr.callI "h" [Val.constFP 1, Val.constFP 2]] }) :=
  C5_call_arity ⟨[⟨"h", ["a", "b"], none⟩, ⟨"q", [], some []⟩], some "q", [], [], []⟩
    ⟨"h", ["a", "b"], none⟩ ⟨"q", [], some []⟩ "q" [] rfl rfl rfl rfl rfl

/-- C6 counterexample: lowering
`BinaryOp('+', VariableRef "y", BinaryOp('+', 1, 2))` in a state where
`y` is unbound makes the left operand fail, yet the right operand IS
still lowered and its `fadd` instruction IS emitted — refuting the
claim that a failing left operand short-circuits before the right
operand is lowered and before any instruction is emitted. -/
theorem C6_counterexample :
    (codegenExpr ⟨[⟨"f", ["x"], some []⟩], some "f", [], [], []⟩
      (Expr.binaryOp '+' (Expr.var "y")
        (Expr.binaryOp '+' (Expr.num 1) (Expr.num 2)))).1 = none ∧
    (codegenExpr ⟨[⟨"f", ["x"], some []⟩], some "f", [], [], []⟩
      (Expr.binaryOp '+' (Expr.var "y")
        (Expr.binaryOp '+' (Expr.num 1) (Expr.num 2)))).2.trace =
      [Instr.fadd (Val.constFP 1) (Val.constFP 2)] :=
  ⟨rfl, rfl⟩

/-- C6 (amended): lowering a `BinaryOp` lowers the left operand and
then ALWAYS lowers the right operand as well; when the left operand
failed, the node's lowering returns failure without dispatching the
operator (no instruction for this node), but the right operand's side
effects — emitted instructions, symbol-table insertions, diagnostics —
persist in the resulting state. -/
theorem C6_left_failure_short_circuit (st : CGState) (op : Char) (l r : Expr)
    (h : (codegenExpr st l).1 = none) :
    codegenExpr st (Expr.binaryOp op l r) =
      (none, (codegenExpr (codegenExpr st l).2 r).2) := by
  rw [codegenExpr]
  rcases hr : (codegenExpr (codegenExpr st l).2 r).1 with _ | v
  · simp [h, hr]
  · simp [h, hr]

/-- Witness for the amended C6 at a concrete failing left operand. -/
theorem C6_left_failure_short_circuit_witness :
    codegenExpr ⟨[⟨"f", ["x"], some []⟩], some "f", [], [], []⟩
        (Expr.binaryOp '+' (Expr.var "y") (Expr.num 2)) =
      (none, (codegenExpr (codegenExpr ⟨[⟨"f", ["x"], some []⟩], some "f", [], [], []⟩
        (Expr.var "y")).2 (Expr.num 2)).2) :=
  C6_left_failure_short_circuit ⟨[⟨"f", ["x"], some []⟩], some "f", [], [], []⟩
    '+' (Expr.var "y") (Expr.num 2) rfl

/-- C10: looking up a `VariableRef` whose name is absent from the
symbol table fails, and is not read-only: `std::map::operator[]`
inserts a null binding for the name, so the table afterwards contains
an entry for the name it did not contain before. -/
theorem C10_failed_lookup_inserts (st : CGState) (n : String)
    (h : lookupNV st.namedValues n = none) :
    (codegenExpr st (Expr.var n)).1 = none ∧
    lookupNV (codegenExpr st (Expr.var n)).2.namedValues n = some none ∧
    (codegenExpr st (Expr.var n)).2.namedValues ≠ st.namedValues := by
  have hfind : st.namedValues.find? (fun p => p.1 = n) = none := by
    by_contra hc
    rw [lookupNV] at h
    cases hfe : List.find? (fun p => p.1 = n) st.namedValues with
    | none => exact hc hfe
    | some p => rw [hfe] at h; simp at h
  have hlk : lookupNV (st.namedValues ++ [(n, none)]) n = some none := by
    rw [lookupNV, List.find?_append, hfind]
    simp
  refine ⟨?_, ?_, ?_⟩
  · simp [codegenExpr, mapIndexGet, h]
  · simp [codegenExpr, mapIndexGet, h, hlk]
  · simp only [codegenExpr, mapIndexGet, h]
    intro hc
    have := congrArg List.length hc
    simp at this

/-- Witness for C10: empty symbol table, name `x`. -/
theorem C10_failed_lookup_inserts_witness :
    (codegenExpr ⟨[], none, [], [], []⟩ (Expr.var "x")).1 = none ∧
    lookupNV (codegenExpr ⟨[], none, [], [], []⟩ (Expr.var "x")).2.namedValues "x" =
      some none ∧
    (codegenExpr ⟨[], none, [], [], []⟩ (Expr.var "x")).2.namedValues ≠
      ([] : List (String × Option Val)) :=
  C10_failed_lookup_inserts ⟨[], none, [], [], []⟩ "x" rfl

/-- Iterated instruction appending: the effect on the module of a
sequence of builder emissions at a fixed insertion point. -/
def appendTr (fopt : Option String) : List Fn → List Instr → List Fn
  | m, [] => m
  | m, i :: tr => appendTr fopt (appendIns m fopt i) tr

theorem appendTr_append (fopt : Option String) (m : List Fn) (t1 t2 : List Instr) :
    appendTr fopt (appendTr fopt m t1) t2 = appendTr fopt m (t1 ++ t2) := by
  induction t1 generalizing m with
  | nil => rfl
  | cons i tr ih => simp [appendTr, ih]

theorem map_if_no_match (m0 : List Fn) (name : String) (g : Fn → Fn)
    (h : ∀ f ∈ m0, f.name ≠ name) :
    m0.map (fun fn => if fn.name = name then g fn else fn) = m0 := by
  induction m0 with
  | nil => rfl
  | cons f rest ih =>
      simp only [List.map_cons]
      rw [if_neg (h f (by simp))]
      rw [ih (fun x hx => h x (by simp [hx]))]

theorem map_if_append_last (m0 : List Fn) (gg : Fn) (name : String) (g : Fn → Fn)
    (h : ∀ f ∈ m0, f.name ≠ name) (hg : gg.name = name) :
    (m0 ++ [gg]).map (fun fn => if fn.name = name then g fn else fn) = m0 ++ [g gg] := by
  rw [List.map_append, map_if_no_match m0 name g h]
  simp [hg]

theorem appendTr_last (name : String) (m0 : List Fn) (g : Fn) (tr : List Instr)
    (hno : ∀ f ∈ m0, f.name ≠ name) (hg : g.name = name) :
    ∃ G : Fn, appendTr (some name) (m0 ++ [g]) tr = m0 ++ [G] ∧ G.name = name := by
  induction tr generalizing g with
  | nil => exact ⟨g, rfl, hg⟩
  | cons i tr ih =>
      rw [appendTr, appendIns,
        map_if_append_last m0 g name (fun fn => { fn with body := fn.body.map (· ++ [i]) }) hno hg]
      exact ih { g with body := g.body.map (· ++ [i]) } hg

theorem eraseFirstNamed_append (m0 : List Fn) (G : Fn) (name : String)
    (hno : ∀ f ∈ m0, f.name ≠ name) (hG : G.name = name) :
    eraseFirstNamed (m0 ++ [G]) name = m0 := by
  induction m0 with
  | nil => simp [eraseFirstNamed, hG]
  | cons f rest ih =>
      simp only [List.cons_append, eraseFirstNamed]
      rw [if_neg (hno f (by simp))]
      exact congrArg (f :: ·) (ih (fun g hg => hno g (by simp [hg])))

/-- Expression lowering only appends instructions to the entry block of
the current insertion-point function: the final module is the initial
one with some instruction sequence appended there, and the insertion
point is unchanged. -/
def ModTr (st st2 : CGState) : Prop :=
  ∃ tr : List Instr,
    st2.module = appendTr st.insertFn st.module tr ∧ st2.insertFn = st.insertFn

theorem ModTr_refl (st st2 : CGState) (hm : st2.module = st.module)
    (hi : st2.insertFn = st.insertFn) : ModTr st st2 :=
  ⟨[], hm, hi⟩

theorem ModTr_trans (s1 s2 s3 : CGState) (h1 : ModTr s1 s2) (h2 : ModTr s2 s3) :
    ModTr s1 s3 := by
  obtain ⟨t1, hm1, hi1⟩ := h1
  obtain ⟨t2, hm2, hi2⟩ := h2
  exact ⟨t1 ++ t2, by rw [hm2, hi1, hm1, appendTr_append], by rw [hi2, hi1]⟩

theorem ModTr_emit (st : CGState) (i : Instr) : ModTr st (emitInstr st i).2 :=
  ⟨[i], rfl, rfl⟩

theorem ModTr_binDispatch (op : Char) (lv rv : Val) (st : CGState) :
    ModTr st (binDispatch op lv rv st).2 := by
  rw [binDispatch]
  split_ifs
  · exact ModTr_emit _ _
  · exact ModTr_emit _ _
  · exact ModTr_emit _ _
  · exact ModTr_emit _ _
  · exact ModTr_trans _ _ _ (ModTr_emit _ _) (ModTr_emit _ _)
  · exact ModTr_refl _ _ rfl rfl

mutual
/-- Module-shape invariant of expression lowering. -/
theorem cg_modTr (e : Expr) (st : CGState) : ModTr st (codegenExpr st e).2 := by
  cases e with
  | num v => exact ModTr_refl _ _ rfl rfl
  | var n =>
      simp only [codegenExpr]
      rcases h : (mapIndexGet st.namedValues n).1 with _ | v <;>
        exact ModTr_refl _ _ rfl rfl
  | binaryOp op l r =>
      have ihl := cg_modTr l st
      have ihr := cg_modTr r (codegenExpr st l).2
      refine ModTr_trans _ _ _ ihl (ModTr_trans _ _ _ ihr ?_)
      simp only [codegenExpr]
      rcases hL : (codegenExpr st l).1 with _ | lv <;>
        rcases hR : (codegenExpr (codegenExpr st l).2 r).1 with _ | rv <;>
          simp only []
      · exact ModTr_refl _ _ rfl rfl
      · exact ModTr_refl _ _ rfl rfl
      · exact ModTr_refl _ _ rfl rfl
      · exact ModTr_binDispatch _ _ _ _
  | call f args =>
      have iha := cgArgs_modTr args st
      simp only [codegenExpr]
      rcases hf : getFunction st.module f with _ | fn
      · exact ModTr_refl _ _ rfl rfl
      · simp only []
        split_ifs
        · exact ModTr_refl _ _ rfl rfl
        · rcases hA : (codegenArgs st args).1 with _ | vs <;> simp only []
          · exact iha
          · exact ModTr_trans _ _ _ iha (ModTr_emit _ _)
/-- Module-shape invariant of argument-list lowering. -/
theorem cgArgs_modTr (l : ExprList) (st : CGState) : ModTr st (codegenArgs st l).2 := by
  cases l with
  | nil => exact ModTr_refl _ _ rfl rfl
  | cons e es =>
      have ihe := cg_modTr e st
      have ihes := cgArgs_modTr es (codegenExpr st e).2
      simp only [codegenArgs]
      rcases hE : (codegenExpr st e).1 with _ | v
      · exact ihe
      · simp only []
        rcases hA : (codegenArgs (codegenExpr st e).2 es).1 with _ | vs <;> simp only [] <;>
          exact ModTr_trans _ _ _ ihe ihes
end

/-- C7 counterexample: the module initially holds a body-less
declaration of `g` (as produced by `extern g(x)`); lowering
`def g(x) = y` fails in the body (unknown variable `y`) and
`eraseFromParent` removes `g` entirely — the module ends up EMPTY, not
in the state it had before this FunctionDef's lowering began. -/
theorem C7_counterexample :
    (FunctionCodeGen ⟨[⟨"g", ["x"], none⟩], none, [], [], []⟩ "g" ["x"]
      (Expr.var "y")).1 = none ∧
    (FunctionCodeGen ⟨[⟨"g", ["x"], none⟩], none, [], [], []⟩ "g" ["x"]
      (Expr.var "y")).2.module = [] ∧
    ([⟨"g", ["x"], none⟩] : List Fn) ≠ [] :=
  ⟨rfl, rfl, by simp⟩

/-- C7 (amended): if the body of a `FunctionDef` fails to lower, the
partially built function is removed from the module and lowering
returns failure; when no function of that name pre-existed (the
function was created by this very lowering), this restores the module
exactly to its pre-lowering state.  (When the name pre-existed as a
body-less declaration, the declaration is erased too — see the
counterexample.) -/
theorem C7_body_failure_rollback (st : CGState) (name : String)
    (argNames : List String) (body : Expr)
    (h1 : getFunction st.module name = none)
    (h2 : (FunctionCodeGen st name argNames body).1 = none) :
    (FunctionCodeGen st name argNames body).2.module = st.module := by
  have hno : ∀ f ∈ st.module, f.name ≠ name := by
    intro f hf
    have := List.find?_eq_none.mp h1 f hf
    simpa using this
  have hlk2 : getFunction (st.module ++ [(⟨name, argNames, none⟩ : Fn)]) name =
      some ⟨name, argNames, none⟩ := by
    rw [getFunction, List.find?_append]
    rw [getFunction] at h1
    rw [h1]
    simp
  have hset : setEmptyBody (st.module ++ [(⟨name, argNames, none⟩ : Fn)]) name =
      st.module ++ [(⟨name, argNames, some []⟩ : Fn)] := by
    rw [setEmptyBody,
      map_if_append_last st.module ⟨name, argNames, none⟩ name
        (fun fn => { fn with body := some [] }) hno rfl]
  rw [FunctionCodeGen] at h2 ⊢
  rw [h1] at h2 ⊢
  simp only [PrototypeCodeGen] at h2 ⊢
  rw [hlk2] at h2 ⊢
  simp only [Option.isSome_none, Bool.false_eq_true, if_false] at h2 ⊢
  rw [hset] at h2 ⊢
  set st1 : CGState :=
    { module := st.module ++ [(⟨name, argNames, some []⟩ : Fn)],
      insertFn := some name,
      namedValues := buildParams name argNames,
      diags := st.diags, trace := st.trace } with hst1
  rcases hB : (codegenExpr st1 body).1 with _ | rv
  · simp only []
    obtain ⟨tr, hm, hi⟩ := cg_modTr body st1
    rw [hst1] at hm
    simp only [] at hm
    obtain ⟨G, hG, hGname⟩ := appendTr_last name st.module ⟨name, argNames, some []⟩ tr hno rfl
    rw [hm, hG]
    exact eraseFirstNamed_append st.module G name hno hGname
  · rw [hB] at h2
    exact Option.noConfusion h2

/-- Witness for the amended C7: fresh `g(x)` with failing body `y`. -/
theorem C7_body_failure_rollback_witness :
    (FunctionCodeGen ⟨[], none, [], [], []⟩ "g" ["x"] (Expr.var "y")).2.module =
      ([] : List Fn) :=
  C7_body_failure_rollback ⟨[], none, [], [], []⟩ "g" ["x"] (Expr.var "y") rfl rfl

/-- C8 counterexample: the numeric literal `1.2.3` contains two `.`
characters, yet lexing the input `1.2.3` SUCCEEDS — `std::stod`
converts the longest valid prefix `1.2` (value 6/5) and no error or
abort occurs, refuting the claim that every collected numeric text with
more than one dot makes the conversion fail. -/
theorem C8_counterexample :
    ("1.2.3".toList.count '.' = 2) ∧
    tokenizeStr "1.2.3" =
      some (Except.ok [⟨TokType.tok_number, cIntOfRat (6/5), "", 6/5⟩,
        ⟨TokType.tok_eof, -1, "", 6/5⟩]) := by
  have hq0 : stodQ ['1', '.', '2', '.', '3'] =
      some (digitsVal ['1'] + digitsVal ['2'] / (10 : ℚ) ^ (['2'] : List Char).length) := rfl
  have hq : stodQ ['1', '.', '2', '.', '3'] = some (6/5) := by
    have d1 : '1'.toNat - '0'.toNat = 1 := rfl
    have d2 : '2'.toNat - '0'.toNat = 2 := rfl
    rw [hq0]
    norm_num [digitsVal, d1, d2]
  refine ⟨rfl, ?_⟩
  have step1 : tokenizeStr "1.2.3" =
      tokenizeF 7 ⟨Ch.chc ' ', ['1', '.', '2', '.', '3'], "", 0⟩ := rfl
  have g1 : GetTokF 7 ⟨Ch.chc ' ', ['1', '.', '2', '.', '3'], "", 0⟩ =
      numResult "" [] ['1', '.', '2', '.', '3'] (stodQ ['1', '.', '2', '.', '3']) := rfl
  rw [step1, tokenizeF, g1, hq]
  rfl

/-- Digit and dot characters are neither whitespace nor alphabetic, so
the number branch of `GetTok` is the one taken for them. -/
theorem digit_classes (c : Char) (h : digitOrDot c = true) :
    isspaceC c = false ∧ isalphaC c = false := by
  have h2 : isdigitC c = true ∨ c = '.' := by simpa [digitOrDot] using h
  rcases h2 with hd | rfl
  · have hb : ('0' ≤ c ∧ c ≤ '9') := by simpa [isdigitC] using hd
    have h48 : 48 ≤ c.toNat := hb.1
    have h57 : c.toNat ≤ 57 := hb.2
    constructor
    · rw [isspaceC]
      simp only [Bool.or_eq_false_iff, decide_eq_false_iff_not]
      refine ⟨⟨⟨⟨⟨?_, ?_⟩, ?_⟩, ?_⟩, ?_⟩, ?_⟩ <;> (rintro rfl; revert h48 h57; decide)
    · rw [isalphaC]
      simp only [Bool.or_eq_false_iff, Bool.and_eq_false_iff, decide_eq_false_iff_not]
      constructor
      · left
        intro hle
        have h97 : 97 ≤ c.toNat := hle
        omega
      · left
        intro hle
        have h65 : 65 ≤ c.toNat := hle
        omega
  · exact ⟨rfl, rfl⟩

/-- On a digit-or-dot pushback character the next `GetTok` call takes
the number branch: it collects the maximal digit/dot run and hands the
`std::stod` outcome to the try/catch block. -/
theorem GetTokF_number (fuel : Nat) (c : Char) (inp : List Char) (ids : String)
    (nv : ℚ) (hdd : digitOrDot c = true) :
    GetTokF (fuel+1) ⟨Ch.chc c, inp, ids, nv⟩ =
      numResult ids (inp.dropWhile digitOrDot) (c :: inp.takeWhile digitOrDot)
        (stodQ (c :: inp.takeWhile digitOrDot)) := by
  obtain ⟨hsp, hal⟩ := digit_classes c hdd
  rw [GetTokF]
  simp only [skipSpaces, hsp, hal, hdd, Bool.false_eq_true, if_false, if_true]

/-- C8 (amended): lexing a numeric literal fails exactly in the
`std::stod` failure cases, and both propagate as an unrecoverable abort
of the whole lexing run: `std::invalid_argument` when the collected
text has no valid numeric prefix (e.g. `..`), and `std::out_of_range`
when the converted value reaches the `double` overflow threshold (e.g.
`1` followed by 309 zeros).  Otherwise — including texts with more than
one dot such as `1.2.3`, converted to their longest valid prefix — the
lexer produces the number token and continues (see the
counterexample for the concrete `1.2.3` run). -/
theorem C8_malformed_literal_aborts
    (fuelA fuelB fuelC : Nat) (stA stB stC : LState) (cB cC : Char) (v w : ℚ)
    (hA1 : stA.lastChar = Ch.chc '.')
    (hA2 : ∀ d, (stA.input.takeWhile digitOrDot).head? = some d → d = '.')
    (hB1 : stB.lastChar = Ch.chc cB) (hB2 : digitOrDot cB = true)
    (hB3 : stodQ (cB :: stB.input.takeWhile digitOrDot) = some v)
    (hB4 : overflowD (cB :: stB.input.takeWhile digitOrDot) = true)
    (hC1 : stC.lastChar = Ch.chc cC) (hC2 : digitOrDot cC = true)
    (hC3 : stodQ (cC :: stC.input.takeWhile digitOrDot) = some w)
    (hC4 : overflowD (cC :: stC.input.takeWhile digitOrDot) = false) :
    GetTokF (fuelA+1) stA = some (Except.error "Invalid numeric value") ∧
    tokenizeF (fuelA+1) stA = some (Except.error "Invalid numeric value") ∧
    GetTokF (fuelB+1) stB = some (Except.error "Numeric value is out of range") ∧
    tokenizeF (fuelB+1) stB = some (Except.error "Numeric value is out of range") ∧
    GetTokF (fuelC+1) stC =
      some (Except.ok (⟨TokType.tok_number, cIntOfRat w, stC.identifierStr, w⟩,
        ⟨(read1 (stC.input.dropWhile digitOrDot)).1,
          (read1 (stC.input.dropWhile digitOrDot)).2, stC.identifierStr, w⟩)) := by
  have hbD : isdigitC '.' = false := rfl
  obtain ⟨lcA, inpA, idsA, nvA⟩ := stA
  obtain ⟨lcB, inpB, idsB, nvB⟩ := stB
  obtain ⟨lcC, inpC, idsC, nvC⟩ := stC
  simp only [] at hA1 hA2 hB1 hB3 hB4 hC1 hC3 hC4 ⊢
  subst hA1
  subst hB1
  subst hC1
  have hfrac : ((inpA.takeWhile digitOrDot).takeWhile isdigitC).isEmpty = true := by
    cases ht : inpA.takeWhile digitOrDot with
    | nil => rfl
    | cons c t =>
        have hc : c = '.' := hA2 c (by rw [ht]; rfl)
        rw [List.takeWhile_cons, hc, hbD]
        rfl
  have hstod : stodQ ('.' :: inpA.takeWhile digitOrDot) = none := by
    rw [stodQ.eq_def]
    simp only [List.takeWhile_cons, List.dropWhile_cons, hbD, Bool.false_eq_true, if_false]
    simp only [List.isEmpty_nil, hfrac, Bool.and_self, if_true]
  have hgetA : GetTokF (fuelA+1) ⟨Ch.chc '.', inpA, idsA, nvA⟩ =
      some (Except.error "Invalid numeric value") := by
    rw [GetTokF_number fuelA '.' inpA idsA nvA rfl, hstod]
    rfl
  have hgetB : GetTokF (fuelB+1) ⟨Ch.chc cB, inpB, idsB, nvB⟩ =
      some (Except.error "Numeric value is out of range") := by
    rw [GetTokF_number fuelB cB inpB idsB nvB hB2, hB3]
    simp only [numResult, hB4, if_true]
  have hgetC : GetTokF (fuelC+1) ⟨Ch.chc cC, inpC, idsC, nvC⟩ =
      some (Except.ok (⟨TokType.tok_number, cIntOfRat w, idsC, w⟩,
        ⟨(read1 (inpC.dropWhile digitOrDot)).1,
          (read1 (inpC.dropWhile digitOrDot)).2, idsC, w⟩)) := by
    rw [GetTokF_number fuelC cC inpC idsC nvC hC2, hC3]
    simp only [numResult, hC4, Bool.false_eq_true, if_false]
  exact ⟨hgetA, by rw [tokenizeF, hgetA], hgetB, by rw [tokenizeF, hgetB], hgetC⟩

set_option maxRecDepth 8192 in
/-- Witness for the amended C8: the invalid literal `..`, the
over-range literal `1` followed by 309 zeros, and the in-range
multi-dot literal `1.2.3`. -/
theorem C8_malformed_literal_aborts_witness :
    GetTokF 1 ⟨Ch.chc '.', ['.'], "", 0⟩ =
      some (Except.error "Invalid numeric value") ∧
    tokenizeF 1 ⟨Ch.chc '.', ['.'], "", 0⟩ =
      some (Except.error "Invalid numeric value") ∧
    GetTokF 1 ⟨Ch.chc '1', List.replicate 309 '0', "", 0⟩ =
      some (Except.error "Numeric value is out of range") ∧
    tokenizeF 1 ⟨Ch.chc '1', List.replicate 309 '0', "", 0⟩ =
      some (Except.error "Numeric value is out of range") ∧
    GetTokF 1 ⟨Ch.chc '1', ['.', '2', '.', '3'], "", 0⟩ =
      some (Except.ok (⟨TokType.tok_number,
          cIntOfRat (digitsVal ['1'] + digitsVal ['2'] / (10 : ℚ) ^ (['2'] : List Char).length),
          "", digitsVal ['1'] + digitsVal ['2'] / (10 : ℚ) ^ (['2'] : List Char).length⟩,
        ⟨(read1 (['.', '2', '.', '3'].dropWhile digitOrDot)).1,
          (read1 (['.', '2', '.', '3'].dropWhile digitOrDot)).2, "",
          digitsVal ['1'] + digitsVal ['2'] / (10 : ℚ) ^ (['2'] : List Char).length⟩)) :=
  C8_malformed_literal_aborts 0 0 0
    ⟨Ch.chc '.', ['.'], "", 0⟩
    ⟨Ch.chc '1', List.replicate 309 '0', "", 0⟩
    ⟨Ch.chc '1', ['.', '2', '.', '3'], "", 0⟩
    '1' '1'
    (digitsVal ('1' :: List.replicate 309 '0'))
    (digitsVal ['1'] + digitsVal ['2'] / (10 : ℚ) ^ (['2'] : List Char).length)
    rfl (fun _ hc => (Option.some.inj hc).symm)
    rfl rfl (by rfl) (by rfl)
    rfl rfl (by rfl) (by rfl)

mutual
/-- Every `BinaryOp` node of the expression carries one of the four
operators of the binding-power table. -/
def opsOK : Expr → Bool
  | Expr.num _ => true
  | Expr.var _ => true
  | Expr.binaryOp op l r =>
      (op == '<' || op == '+' || op == '-' || op == '*') && opsOK l && opsOK r
  | Expr.call _ args => opsOKList args
/-- `opsOK` over an argument list. -/
def opsOKList : ExprList → Bool
  | ExprList.nil => true
  | ExprList.cons e es => opsOK e && opsOKList es
end

/-- An instruction is not a division. -/
def notFDiv : Instr → Bool
  | Instr.fdiv _ _ => false
  | _ => true

theorem prec_char (t : Tok) (prec : Int) (h : ¬ (GetTokPrecedence t < prec))
    (hp : 0 ≤ prec) :
    charOfVal t.value = '<' ∨ charOfVal t.value = '+' ∨
    charOfVal t.value = '-' ∨ charOfVal t.value = '*' := by
  rw [GetTokPrecedence] at h
  split_ifs at h with h1 h2 h3 h4 h5
  · left; rw [charOfVal, h2]; rfl
  · right; left; rw [charOfVal, h3]; rfl
  · right; right; left; rw [charOfVal, h4]; rfl
  · right; right; right; rw [charOfVal, h5]; rfl
  · omega
  · omega

/-- The parser-output invariant, stated for one level of the parser
record. -/
def PInv (p : ParserFns) : Prop :=
  (∀ s e s', p.primary s = some (e, s') → opsOK e = true) ∧
  (∀ s e s', p.identExpr s = some (e, s') → opsOK e = true) ∧
  (∀ s e s', p.parenExpr s = some (e, s') → opsOK e = true) ∧
  (∀ s l s', p.argsList s = some (l, s') → opsOKList l = true) ∧
  (∀ s e s', p.expression s = some (e, s') → opsOK e = true) ∧
  (∀ prec lhs s e s', 0 ≤ prec → opsOK lhs = true →
    p.binOpRHS prec lhs s = some (e, s') → opsOK e = true)

theorem PInv_step (p : ParserFns) (hp : PInv p) : PInv (parserStep p) := by
  obtain ⟨hPrim, hIdent, hParen, hArgs, hExpr, hBin⟩ := hp
  refine ⟨?_, ?_, ?_, ?_, ?_, ?_⟩
  · intro s e s' h
    simp only [parserStep] at h
    split at h
    · exact hIdent s e s' h
    · obtain ⟨rfl, rfl⟩ := Prod.mk.injEq .. ▸ Option.some.inj h
      rfl
    · exact hParen s e s' h
    · exact Option.noConfusion h
  · intro s e s' h
    simp only [parserStep] at h
    split at h
    · obtain ⟨rfl, rfl⟩ := Prod.mk.injEq .. ▸ Option.some.inj h
      rfl
    · split at h
      · split at h
        · exact Option.noConfusion h
        · rename_i args s3 heq
          obtain ⟨rfl, rfl⟩ := Prod.mk.injEq .. ▸ Option.some.inj h
          exact hArgs _ _ _ heq
      · obtain ⟨rfl, rfl⟩ := Prod.mk.injEq .. ▸ Option.some.inj h
        rfl
  · intro s e s' h
    simp only [parserStep] at h
    split at h
    · exact Option.noConfusion h
    · rename_i v s2 heq
      split at h
      · exact Option.noConfusion h
      · obtain ⟨rfl, rfl⟩ := Prod.mk.injEq .. ▸ Option.some.inj h
        exact hExpr _ _ _ heq
  · intro s l s' h
    simp only [parserStep] at h
    split at h
    · exact Option.noConfusion h
    · rename_i arg s1 heq
      have harg := hExpr _ _ _ heq
      split at h
      · obtain ⟨rfl, rfl⟩ := Prod.mk.injEq .. ▸ Option.some.inj h
        simp [opsOKList, opsOK, harg]
      · split at h
        · exact Option.noConfusion h
        · split at h
          · exact Option.noConfusion h
          · rename_i args s2 heq2
            obtain ⟨rfl, rfl⟩ := Prod.mk.injEq .. ▸ Option.some.inj h
            simp [opsOKList, harg, hArgs _ _ _ heq2]
  · intro s e s' h
    simp only [parserStep] at h
    split at h
    · exact Option.noConfusion h
    · rename_i lhs s1 heq
      exact hBin 0 lhs s1 e s' (by omega) (hPrim _ _ _ heq) h
  · intro prec lhs s e s' hprec hlhs h
    simp only [parserStep] at h
    split at h
    · obtain ⟨rfl, rfl⟩ := Prod.mk.injEq .. ▸ Option.some.inj h
      exact hlhs
    · rename_i hge
      split at h
      · exact Option.noConfusion h
      · rename_i rhs s2 heqP
        have hrhs := hPrim _ _ _ heqP
        split at h
        · exact Option.noConfusion h
        · rename_i rhs2 s3 heqI
          have hrhs2 : opsOK rhs2 = true := by
            split at heqI
            · exact hBin _ _ _ _ _ (by omega) hrhs heqI
            · obtain ⟨rfl, rfl⟩ := Prod.mk.injEq .. ▸ Option.some.inj heqI
              exact hrhs
          have hchar := prec_char s.cur prec hge hprec
          refine hBin prec _ s3 e s' hprec ?_ h
          rcases hchar with hc | hc | hc | hc <;> simp [opsOK, hc, hlhs, hrhs2]

theorem parsers_PInv : ∀ fuel, PInv (parsers fuel) := by
  intro fuel
  induction fuel with
  | zero =>
      exact ⟨fun s e s2 h => Option.noConfusion h, fun s e s2 h => Option.noConfusion h,
        fun s e s2 h => Option.noConfusion h, fun s l s2 h => Option.noConfusion h,
        fun s e s2 h => Option.noConfusion h,
        fun prec lhs s e s2 hq hl h => Option.noConfusion h⟩
  | succ n ih => exact PInv_step (parsers n) ih

/-- For the four table operators the dispatch succeeds, prints no
diagnostic (the InvalidOperator default is not taken) and emits no
division instruction (the `/` branch is not taken). -/
theorem binDispatch_safe (op : Char) (lv rv : Val) (st : CGState)
    (hop : op = '<' ∨ op = '+' ∨ op = '-' ∨ op = '*') :
    (binDispatch op lv rv st).1.isSome = true ∧
    (binDispatch op lv rv st).2.diags = st.diags ∧
    (st.trace.all notFDiv = true → (binDispatch op lv rv st).2.trace.all notFDiv = true) := by
  rcases hop with rfl | rfl | rfl | rfl <;>
    simp [binDispatch, emitInstr, notFDiv, List.all_append]

mutual
/-- Lowering an expression whose operators all lie in the table never
emits a division instruction. -/
theorem cg_noFDiv (e : Expr) : ∀ st : CGState, opsOK e = true →
    st.trace.all notFDiv = true → (codegenExpr st e).2.trace.all notFDiv = true := by
  cases e with
  | num v => intro st _ htr; exact htr
  | var n =>
      intro st _ htr
      simp only [codegenExpr]
      rcases h : (mapIndexGet st.namedValues n).1 with _ | v <;> simpa using htr
  | binaryOp op l r =>
      intro st hok htr
      have hops : (op == '<' || op == '+' || op == '-' || op == '*') = true ∧
          opsOK l = true ∧ opsOK r = true := by
        rw [opsOK] at hok
        simp only [Bool.and_eq_true] at hok
        exact ⟨hok.1.1, hok.1.2, hok.2⟩
      have h1 := cg_noFDiv l st hops.2.1 htr
      have h2 := cg_noFDiv r (codegenExpr st l).2 hops.2.2 h1
      simp only [codegenExpr]
      rcases hL : (codegenExpr st l).1 with _ | lv <;>
        rcases hR : (codegenExpr (codegenExpr st l).2 r).1 with _ | rv <;>
          simp only []
      · exact h2
      · exact h2
      · exact h2
      · have hop : op = '<' ∨ op = '+' ∨ op = '-' ∨ op = '*' := by
          have := hops.1
          simp only [Bool.or_eq_true, beq_iff_eq] at this
          tauto
        exact (binDispatch_safe op lv rv (codegenExpr (codegenExpr st l).2 r).2 hop).2.2 h2
  | call f args =>
      intro st hok htr
      have hargs : opsOKList args = true := by rw [opsOK] at hok; exact hok
      simp only [codegenExpr]
      rcases hf : getFunction st.module f with _ | fn
      · simpa using htr
      · simp only []
        split_ifs
        · simpa using htr
        · have ha := cgArgs_noFDiv args st hargs htr
          rcases hA : (codegenArgs st args).1 with _ | vs <;> simp only []
          · exact ha
          · simpa [emitInstr, notFDiv, List.all_append] using ha
/-- `cg_noFDiv` over argument lists. -/
theorem cgArgs_noFDiv (l : ExprList) : ∀ st : CGState, opsOKList l = true →
    st.trace.all notFDiv = true → (codegenArgs st l).2.trace.all notFDiv = true := by
  cases l with
  | nil => intro st _ htr; exact htr
  | cons e es =>
      intro st hok htr
      have hops : opsOK e = true ∧ opsOKList es = true := by
        rw [opsOKList] at hok
        simpa using hok
      have h1 := cg_noFDiv e st hops.1 htr
      have h2 := cgArgs_noFDiv es (codegenExpr st e).2 hops.2 h1
      simp only [codegenArgs]
      rcases hE : (codegenExpr st e).1 with _ | v
      · exact h1
      · simp only []
        rcases hA : (codegenArgs (codegenExpr st e).2 es).1 with _ | vs <;>
          simp only [] <;> exact h2
end

/-- C9: every AST the expression parser returns has all its `BinaryOp`
operators in `{'<','+','-','*'}` (only tokens with non-negative binding
power are ever consumed as binary operators); consequently lowering a
parser-produced AST never emits an `fdiv` instruction, and for those
operators the dispatch of `BinaryExprCodeGen` always succeeds without
an InvalidOperator diagnostic — the `/` branch and the default branch
are unreachable. -/
theorem C9_parser_ops_invariant (fuel : Nat) (s : PState) (e : Expr) (s2 : PState)
    (cst : CGState) (op : Char) (lv rv : Val)
    (hparse : parseExpressionF fuel s = some (e, s2))
    (htr : cst.trace.all notFDiv = true)
    (hop : op = '<' ∨ op = '+' ∨ op = '-' ∨ op = '*') :
    opsOK e = true ∧
    (codegenExpr cst e).2.trace.all notFDiv = true ∧
    (binDispatch op lv rv cst).1.isSome = true ∧
    (binDispatch op lv rv cst).2.diags = cst.diags := by
  have hok : opsOK e = true :=
    (parsers_PInv fuel).2.2.2.2.1 s e s2 hparse
  have hsafe := binDispatch_safe op lv rv cst hop
  exact ⟨hok, cg_noFDiv e cst hok htr, hsafe.1, hsafe.2.1⟩

/-- Witness for C9 at the parse of `1+2` and an empty backend state. -/
theorem C9_parser_ops_invariant_witness :
    opsOK (Expr.binaryOp '+' (Expr.num 1) (Expr.num 2)) = true ∧
    (codegenExpr ⟨[], none, [], [], []⟩
      (Expr.binaryOp '+' (Expr.num 1) (Expr.num 2))).2.trace.all notFDiv = true ∧
    (binDispatch '+' (Val.constFP 1) (Val.constFP 2) ⟨[], none, [], [], []⟩).1.isSome = true ∧
    (binDispatch '+' (Val.constFP 1) (Val.constFP 2) ⟨[], none, [], [], []⟩).2.diags =
      ([] : List String) :=
  C9_parser_ops_invariant 8 (advance ⟨eofTok, [numTok 1, opTok '+', numTok 2]⟩)
    (Expr.binaryOp '+' (Expr.num 1) (Expr.num 2)) ⟨eofTok, []⟩ ⟨[], none, [], [], []⟩
    '+' (Val.constFP 1) (Val.constFP 2) rfl rfl (Or.inr (Or.inl rfl))

theorem digitsVal_cast (l : List Char) : digitsVal l = (digitsValNat l : ℚ) := by
  have aux : ∀ (l2 : List Char) (a : ℕ),
      List.foldl (fun acc c => 10 * acc + ((c.toNat - '0'.toNat : ℕ) : ℚ)) (a : ℚ) l2 =
      ((List.foldl (fun acc c => 10 * acc + (c.toNat - '0'.toNat)) a l2 : ℕ) : ℚ) := by
    intro l2
    induction l2 with
    | nil => intro a; simp
    | cons c t ih =>
        intro a
        simp only [List.foldl_cons]
        rw [show (10 * (a : ℚ) + ((c.toNat - '0'.toNat : ℕ) : ℚ)) =
            ((10 * a + (c.toNat - '0'.toNat) : ℕ) : ℚ) by push_cast; ring]
        exact ih _
  have h0 := aux l 0
  simpa [digitsVal, digitsValNat] using h0

theorem digitsValNat_lt (l : List Char) : ∀ (a : ℕ), (∀ c ∈ l, isdigitC c = true) →
    List.foldl (fun acc c => 10 * acc + (c.toNat - '0'.toNat)) a l <
      (a + 1) * 10 ^ l.length := by
  induction l with
  | nil => intro a _; simp
  | cons c t ih =>
      intro a hall
      have hc : isdigitC c = true := hall c (by simp)
      have hb : ('0' ≤ c ∧ c ≤ '9') := by simpa [isdigitC] using hc
      have h57 : c.toNat ≤ 57 := hb.2
      have hd9 : c.toNat - '0'.toNat ≤ 9 := by
        have h48 : '0'.toNat = 48 := rfl
        omega
      simp only [List.foldl_cons, List.length_cons]
      calc List.foldl (fun acc c => 10 * acc + (c.toNat - '0'.toNat))
            (10 * a + (c.toNat - '0'.toNat)) t
          < (10 * a + (c.toNat - '0'.toNat) + 1) * 10 ^ t.length :=
            ih (10 * a + (c.toNat - '0'.toNat)) (fun x hx => hall x (by simp [hx]))
        _ ≤ ((a + 1) * 10) * 10 ^ t.length := Nat.mul_le_mul_right _ (by omega)
        _ = (a + 1) * 10 ^ (t.length + 1) := by ring

theorem frac_lt (r : List Char) :
    digitsValNat (r.takeWhile isdigitC) < 10 ^ (r.takeWhile isdigitC).length := by
  have := digitsValNat_lt (r.takeWhile isdigitC) 0
    (fun c hc => List.mem_takeWhile_imp hc)
  simpa only [digitsValNat, Nat.zero_add, Nat.one_mul] using this

theorem ovfThreshold_cast : ((ovfThreshold : ℕ) : ℚ) = (2 : ℚ) ^ 1024 - (2 : ℚ) ^ 970 := by
  rw [ovfThreshold_eq, Nat.cast_sub (Nat.pow_le_pow_right (by norm_num) (by norm_num))]
  push_cast
  norm_num

/-- The text-level overflow test agrees with the value-level one: for a
text `std::stod` converts, the integer-part digits reach the `double`
overflow threshold exactly when the converted value does. -/
theorem overflowD_value (text : List Char) (v : ℚ) (hv : stodQ text = some v) :
    (overflowD text = true) ↔ ((2 : ℚ) ^ 1024 - (2 : ℚ) ^ 970 ≤ v) := by
  rw [stodQ.eq_def] at hv
  rw [overflowD, decide_eq_true_iff, ← Nat.cast_le (α := ℚ), ovfThreshold_cast,
    ← digitsVal_cast]
  split at hv
  · rename_i rest2 heq
    split at hv
    · exact Option.noConfusion hv
    · have hv2 := Option.some.inj hv
      subst hv2
      have hfle : digitsVal (rest2.takeWhile isdigitC) / (10 : ℚ) ^ (rest2.takeWhile isdigitC).length < 1 := by
        rw [digitsVal_cast]
        rw [div_lt_one (by positivity)]
        exact_mod_cast frac_lt rest2
      have hfge : (0 : ℚ) ≤ digitsVal (rest2.takeWhile isdigitC) / (10 : ℚ) ^ (rest2.takeWhile isdigitC).length := by
        rw [digitsVal_cast]
        positivity
      constructor
      · intro hle
        exact le_add_of_le_of_nonneg hle hfge
      · intro hle
        have h1 : (2 : ℚ) ^ 1024 - (2 : ℚ) ^ 970 < digitsVal (text.takeWhile isdigitC) + 1 := by
          linarith
        rw [← ovfThreshold_cast, digitsVal_cast] at h1
        have h2 : ovfThreshold < digitsValNat (text.takeWhile isdigitC) + 1 := by
          exact_mod_cast h1
        rw [← ovfThreshold_cast, digitsVal_cast, Nat.cast_le]
        omega
  · split at hv
    · exact Option.noConfusion hv
    · have hv2 := Option.some.inj hv
      subst hv2
      constructor
      · intro hle; exact hle
      · intro hle; exact hle
